import Mathlib

/-
Verification of the EarlySpring alarm scheduling and lifecycle engine.

Shallow embedding of:
  * src/earlyspring/src/utils/alarmScheduler.ts   (occurrence resolver, timer
    registry, trigger pipeline, snooze/dismiss),
  * the userService section of src/earlyspring/src/services/ttsService.ts
    (updatePlantHealth),
  * src/earlyspring/src/components/alarm/AlarmDisplay.tsx  (ringing-session
    lifecycle: wake-up / snooze / ignore handlers).

Wall-clock time is modelled as whole local days since a fixed epoch plus
milliseconds within the day; JS `Date` arithmetic in the sources only ever
reads/writes local wall-clock fields, so this is faithful (no timezone
conversion happens in the code).  Machine numbers in the sources are JS
doubles holding small integers; all quantities involved (milliseconds,
minutes, scores) are small integers on which double arithmetic is exact,
so they are modelled as Nat/Int.  `Math.floor(x * 0.8)` for the snooze
shortening equals `x * 4 / 5` in natural division for every realistic
magnitude of `x` (double rounding cannot cross an integer boundary there).
Strings from the sources are modelled injectively: the "HH:MM" time string
as an (hours, minutes) pair, labels as an inductive text tree.
-/

namespace EarlySpring

/-- Weekday names (`WeekDay` in src/types). -/
inductive WeekDay
  | Sun | Mon | Tue | Wed | Thu | Fri | Sat
deriving DecidableEq, Repr

/-- The `dayMap` lookup used by `isToday` and the forward scan of
`getNextAlarmTime`: JS `Date.getDay()` index (0 = Sunday) to weekday name.
The source indexes with a value in 0..6; taking `% 7` first makes the
function total without changing it on that domain. -/
def dayMap (n : Nat) : WeekDay :=
  match n % 7 with
  | 0 => .Sun
  | 1 => .Mon
  | 2 => .Tue
  | 3 => .Wed
  | 4 => .Thu
  | 5 => .Fri
  | _ => .Sat

/-- An alarm's "HH:MM" time string, parsed (`alarm.time.split(':').map(Number)`).
Zero-padded "HH:MM" strings are in bijection with these pairs, so string
equality on times is pair equality. -/
structure TimeOfDay where
  hours : Nat
  minutes : Nat
deriving DecidableEq, Repr

/-- `snoozeBehavior` variants from src/types. -/
inductive SnoozeBehavior
  | «repeat» | repeat_shorten | once
deriving DecidableEq, Repr

/-- Alarm label text, modelled injectively instead of as a raw string:
`snoozedOf t` stands for the string of `t` followed by the " (Snoozed)"
suffix, and `defaultLabel` for the fallback text used when the label is
missing. -/
inductive LabelText
  | defaultLabel
  | user (n : Nat)
  | snoozedOf (t : LabelText)
deriving DecidableEq, Repr

/-- `Alarm` from src/types (fields not read by the engine are omitted;
document ids are modelled as numbers, which the engine only compares for
equality). -/
structure Alarm where
  _id : Option Nat
  userId : Nat
  time : TimeOfDay
  label : Option LabelText
  days : List WeekDay
  isEnabled : Bool
  sound : Option Nat := none
  vibrate : Bool := false
  raiseVolumeGradually : Bool := false
  isSnoozeEnabled : Bool := false
  snoozeTime : Option Nat := none
  snoozeBehavior : Option SnoozeBehavior := none
  weatherAlert : Bool := false
  _manuallyTriggered : Bool := false
deriving DecidableEq, Repr

def msPerDay : Nat := 86400000

/-- A local wall-clock instant: whole days since a fixed local epoch plus
milliseconds within the day (a well-formed instant has `ms < msPerDay`). -/
structure Instant where
  day : Nat
  ms : Nat
deriving DecidableEq, Repr

/-- Total milliseconds, i.e. `Date.prototype.getTime` up to the epoch shift. -/
def Instant.toMs (i : Instant) : Nat := i.day * msPerDay + i.ms

/-- Weekday index of the epoch day (Thursday, as for 1970-01-01). -/
def epochDow : Nat := 4

/-- JS `Date.prototype.getDay` of the instant's date. -/
def Instant.getDay (i : Instant) : Nat := (epochDow + i.day) % 7

/-- `isToday` from alarmScheduler.ts: is `day` the weekday of `now`? -/
def isToday (day : WeekDay) (now : Instant) : Bool :=
  decide (day = dayMap now.getDay)

/-- Milliseconds after local midnight of `alarmTime.setHours(hours, minutes, 0, 0)`:
the configured time-of-day with seconds and milliseconds zeroed. -/
def TimeOfDay.targetMs (t : TimeOfDay) : Nat := (t.hours * 60 + t.minutes) * 60000

/-- The `for (let i = 1; i <= 7; i++)` scan of `getNextAlarmTime`, searching
for the first offset `i` whose weekday is in the alarm's active set.  Written
with explicit fuel (the loop bound); the source runs it with `i = 1`,
`fuel = 7`.  Returns the absolute day index `now.day + i` of the hit. -/
def scanNextDay (alarm : Alarm) (now : Instant) : Nat → Nat → Option Nat
  | _, 0 => none
  | i, fuel + 1 =>
    if dayMap (Instant.getDay ⟨now.day + i, 0⟩) ∈ alarm.days then some (now.day + i)
    else scanNextDay alarm now (i + 1) fuel

/-- `getNextAlarmTime` from alarmScheduler.ts: if some active day is today and
today's occurrence of the configured time is still strictly in the future
(`alarmTime > now`, millisecond comparison — exact equality counts as passed),
return today at that time; otherwise scan forward 1..7 days for the next
active weekday. -/
def getNextAlarmTime (alarm : Alarm) (now : Instant) : Option Instant :=
  if (alarm.days.any fun d => isToday d now) ∧ alarm.time.targetMs > now.ms then
    some ⟨now.day, alarm.time.targetMs⟩
  else
    match scanNextDay alarm now 1 7 with
    | some d => some ⟨d, alarm.time.targetMs⟩
    | none => none

lemma getDay_mk (d m : Nat) : Instant.getDay ⟨d, m⟩ = (epochDow + d) % 7 := rfl

lemma any_isToday_iff (alarm : Alarm) (now : Instant) :
    ((alarm.days.any fun d => isToday d now) = true) ↔ dayMap now.getDay ∈ alarm.days := by
  simp only [List.any_eq_true, isToday, decide_eq_true_eq]
  constructor
  · rintro ⟨d, hd, rfl⟩; exact hd
  · intro h; exact ⟨_, h, rfl⟩

lemma scanNextDay_some {alarm : Alarm} {now : Instant} {i fuel d : Nat}
    (h : scanNextDay alarm now i fuel = some d) :
    ∃ j, d = now.day + j ∧ i ≤ j ∧ j < i + fuel ∧
      dayMap ((epochDow + d) % 7) ∈ alarm.days ∧
      ∀ k, i ≤ k → k < j → dayMap ((epochDow + (now.day + k)) % 7) ∉ alarm.days := by
  induction fuel generalizing i with
  | zero => simp [scanNextDay] at h
  | succ fuel ih =>
    rw [scanNextDay] at h
    by_cases hmem : dayMap (Instant.getDay ⟨now.day + i, 0⟩) ∈ alarm.days
    · rw [if_pos hmem] at h
      refine ⟨i, by simpa using h.symm, le_refl i, by omega, ?_, by omega⟩
      obtain rfl : d = now.day + i := by simpa using h.symm
      simpa [getDay_mk] using hmem
    · rw [if_neg hmem] at h
      obtain ⟨j, hj, hij, hjf, hmem', hmin⟩ := ih h
      refine ⟨j, hj, by omega, by omega, hmem', ?_⟩
      intro k hik hkj
      rcases Nat.eq_or_lt_of_le hik with rfl | hik'
      · simpa [getDay_mk] using hmem
      · exact hmin k hik' hkj

lemma scanNextDay_none {alarm : Alarm} {now : Instant} {i fuel : Nat}
    (h : scanNextDay alarm now i fuel = none) :
    ∀ k, i ≤ k → k < i + fuel → dayMap ((epochDow + (now.day + k)) % 7) ∉ alarm.days := by
  induction fuel generalizing i with
  | zero => omega
  | succ fuel ih =>
    rw [scanNextDay] at h
    by_cases hmem : dayMap (Instant.getDay ⟨now.day + i, 0⟩) ∈ alarm.days
    · simp [if_pos hmem] at h
    · rw [if_neg hmem] at h
      intro k hik hkf
      rcases Nat.eq_or_lt_of_le hik with rfl | hik'
      · simpa [getDay_mk] using hmem
      · exact ih h k hik' (by omega)

lemma dayMap_surjective (w : WeekDay) : ∃ m, m < 7 ∧ dayMap m = w := by
  cases w
  · exact ⟨0, by omega, rfl⟩
  · exact ⟨1, by omega, rfl⟩
  · exact ⟨2, by omega, rfl⟩
  · exact ⟨3, by omega, rfl⟩
  · exact ⟨4, by omega, rfl⟩
  · exact ⟨5, by omega, rfl⟩
  · exact ⟨6, by omega, rfl⟩

lemma residue_hit (base m : Nat) (hm : m < 7) :
    ∃ k, 1 ≤ k ∧ k ≤ 7 ∧ (base + k) % 7 = m := by
  refine ⟨(m + 7 - (base % 7 + 1)) % 7 + 1, ?_, ?_, ?_⟩ <;> omega

lemma scanNextDay_exists (alarm : Alarm) (now : Instant) (hdays : alarm.days ≠ []) :
    ∃ d, scanNextDay alarm now 1 7 = some d := by
  cases hscan : scanNextDay alarm now 1 7 with
  | some d => exact ⟨d, rfl⟩
  | none =>
    exfalso
    obtain ⟨w, hw⟩ := List.exists_mem_of_ne_nil _ hdays
    obtain ⟨m, hm7, hmw⟩ := dayMap_surjective w
    obtain ⟨k, hk1, hk7, hkm⟩ := residue_hit (epochDow + now.day) m hm7
    have := scanNextDay_none hscan k hk1 (by omega)
    rw [show epochDow + (now.day + k) = epochDow + now.day + k by omega, hkm, hmw] at this
    exact this hw

/-- C1: for every alarm definition with at least one active weekday and any
current instant, `getNextAlarmTime` returns an instant strictly later than
now whose weekday is active and whose time-of-day is the configured one; it
returns today exactly when today's weekday is active and the configured time
is strictly after now (equality counts as passed), and otherwise the first
later day (at most 7 ahead) with an active weekday. -/
theorem C1_resolver_correct (alarm : Alarm) (now : Instant)
    (hms : now.ms < msPerDay) (hdays : alarm.days ≠ []) :
    ∃ t, getNextAlarmTime alarm now = some t ∧
      now.toMs < t.toMs ∧
      dayMap t.getDay ∈ alarm.days ∧
      t.ms = alarm.time.targetMs ∧
      (t.day = now.day ↔ dayMap now.getDay ∈ alarm.days ∧ now.ms < alarm.time.targetMs) ∧
      (t.day ≠ now.day →
        now.day < t.day ∧ t.day ≤ now.day + 7 ∧
        ∀ d, now.day < d → d < t.day →
          dayMap (Instant.getDay ⟨d, alarm.time.targetMs⟩) ∉ alarm.days) := by
  unfold getNextAlarmTime
  by_cases hc : ((alarm.days.any fun d => isToday d now) = true) ∧ alarm.time.targetMs > now.ms
  · rw [if_pos hc]
    refine ⟨⟨now.day, alarm.time.targetMs⟩, rfl, ?_, ?_, rfl, ?_, ?_⟩
    · simp only [Instant.toMs]
      omega
    · exact (any_isToday_iff alarm now).mp hc.1
    · simpa using ⟨(any_isToday_iff alarm now).mp hc.1, hc.2⟩
    · intro h; exact absurd rfl h
  · rw [if_neg hc]
    obtain ⟨d, hd⟩ := scanNextDay_exists alarm now hdays
    obtain ⟨j, rfl, hj1, hj8, hmem, hmin⟩ := scanNextDay_some hd
    rw [hd]
    refine ⟨⟨now.day + j, alarm.time.targetMs⟩, rfl, ?_, ?_, rfl, ?_, ?_⟩
    · show now.toMs < Instant.toMs ⟨now.day + j, alarm.time.targetMs⟩
      simp only [Instant.toMs, msPerDay] at hms ⊢
      omega
    · simpa [getDay_mk] using hmem
    · show now.day + j = now.day ↔ _
      constructor
      · intro h; omega
      · intro ⟨hmemt, hlt⟩
        exact absurd ⟨(any_isToday_iff alarm now).mpr hmemt, hlt⟩ hc
    · show now.day + j ≠ now.day → now.day < now.day + j ∧ now.day + j ≤ now.day + 7 ∧ _
      intro _
      refine ⟨by omega, by omega, ?_⟩
      intro d hd1 hd2
      have hd2' : d < now.day + j := hd2
      have := hmin (d - now.day) (by omega) (by omega)
      rw [show now.day + (d - now.day) = d by omega] at this
      simpa [getDay_mk] using this

/-- C1 witness: a Monday-and-Friday 07:00 alarm evaluated on a Thursday
(epoch day 0) at 07:00:00.000 sharp resolves to Friday 07:00, exercising the
tie-break and the forward scan. -/
theorem C1_resolver_correct_witness :
    ((⟨0, 7 * 3600000⟩ : Instant).ms < msPerDay ∧
      ({ _id := some 1, userId := 0, time := ⟨7, 0⟩, label := none,
         days := [WeekDay.Mon, WeekDay.Fri], isEnabled := true } : Alarm).days ≠ []) ∧
    (∃ t, getNextAlarmTime
        { _id := some 1, userId := 0, time := ⟨7, 0⟩, label := none,
          days := [WeekDay.Mon, WeekDay.Fri], isEnabled := true }
        ⟨0, 7 * 3600000⟩ = some t ∧
      Instant.toMs ⟨0, 7 * 3600000⟩ < t.toMs ∧
      dayMap t.getDay ∈ [WeekDay.Mon, WeekDay.Fri] ∧
      t.ms = TimeOfDay.targetMs ⟨7, 0⟩ ∧
      (t.day = 0 ↔ dayMap (Instant.getDay ⟨0, 7 * 3600000⟩) ∈ [WeekDay.Mon, WeekDay.Fri] ∧
        (⟨0, 7 * 3600000⟩ : Instant).ms < TimeOfDay.targetMs ⟨7, 0⟩) ∧
      (t.day ≠ 0 →
        0 < t.day ∧ t.day ≤ 0 + 7 ∧
        ∀ d, 0 < d → d < t.day →
          dayMap (Instant.getDay ⟨d, TimeOfDay.targetMs ⟨7, 0⟩⟩) ∉ [WeekDay.Mon, WeekDay.Fri])) :=
  ⟨⟨by decide, by decide⟩,
    C1_resolver_correct
      { _id := some 1, userId := 0, time := ⟨7, 0⟩, label := none,
        days := [WeekDay.Mon, WeekDay.Fri], isEnabled := true }
      ⟨0, 7 * 3600000⟩ (by decide) (by decide)⟩

/-- `ActiveAlarm` entries of the module-level `activeAlarms` registry. -/
structure ActiveAlarm where
  id : Nat
  timerId : Nat
  alarm : Alarm
  scheduledTime : Instant
deriving DecidableEq, Repr

/-- The scheduler's mutable module state: the `activeAlarms` list plus a
counter modelling `window.setTimeout` handing out fresh timer handles. -/
structure SchedState where
  activeAlarms : List ActiveAlarm
  nextTimerId : Nat
deriving DecidableEq, Repr

def initState : SchedState := ⟨[], 0⟩

/-- Observable side effects of the scheduler operations, in program order. -/
inductive SchedEvent
  | clearTimeout (timerId : Nat)
  | setTimeout (timerId : Nat) (delay : Nat)
  | healthDelta (d : Int)
  | stopAudio
deriving DecidableEq, Repr

/-- `msUntil`: `Math.max(0, target.getTime() - now.getTime())`; Nat
subtraction truncates at zero exactly like the `max(0, ·)`. -/
def msUntil (target now : Instant) : Nat := target.toMs - now.toMs

/-- `areAlarmsEquivalent`: same id, time string, enabled flag, and
`JSON.stringify`-equal day lists (stringify equality on these lists is list
equality). -/
def areAlarmsEquivalent (a b : Alarm) : Bool :=
  decide (a._id = b._id ∧ a.time = b.time ∧ a.isEnabled = b.isEnabled ∧ a.days = b.days)

/-- `scheduleAlarm` from alarmScheduler.ts.  Skips disabled or id-less alarms
and unresolvable times; if an entry for the id exists with an equivalent
definition and the identical computed fire instant, the call is a no-op;
otherwise it clears any existing timer for the id and arms a fresh one.
Returns the new state together with the emitted timer events. -/
def scheduleAlarm (alarm : Alarm) (now : Instant) (s : SchedState) :
    SchedState × List SchedEvent :=
  if alarm.isEnabled = false then (s, [])
  else
    match alarm._id with
    | none => (s, [])
    | some id =>
      match getNextAlarmTime alarm now with
      | none => (s, [])
      | some nextTime =>
        let delay := msUntil nextTime now
        let armed : SchedState × List SchedEvent → SchedState × List SchedEvent :=
          fun p =>
            (⟨p.1.activeAlarms ++ [⟨id, p.1.nextTimerId, alarm, nextTime⟩], p.1.nextTimerId + 1⟩,
              p.2 ++ [.setTimeout p.1.nextTimerId delay])
        match s.activeAlarms.find? fun e => decide (e.id = id) with
        | some existing =>
          if areAlarmsEquivalent existing.alarm alarm ∧ existing.scheduledTime = nextTime then
            (s, [])
          else
            armed (⟨s.activeAlarms.eraseP fun e => decide (e.id = id), s.nextTimerId⟩,
              [.clearTimeout existing.timerId])
        | none => armed (s, [])

/-- `cancelAlarm`: clear and remove the entry for the id if present. -/
def cancelAlarm (alarmId : Nat) (s : SchedState) : SchedState × List SchedEvent :=
  match s.activeAlarms.find? fun e => decide (e.id = alarmId) with
  | some e =>
    (⟨s.activeAlarms.eraseP fun x => decide (x.id = alarmId), s.nextTimerId⟩,
      [.clearTimeout e.timerId])
  | none => (s, [])

/-- `cancelAllAlarms`: clear every timer and empty the registry. -/
def cancelAllAlarms (s : SchedState) : SchedState × List SchedEvent :=
  (⟨[], s.nextTimerId⟩, s.activeAlarms.map fun e => .clearTimeout e.timerId)

/-- `scheduleAllAlarms`: cancel everything, then schedule each enabled alarm. -/
def scheduleAllAlarms (alarms : List Alarm) (now : Instant) (s : SchedState) :
    SchedState × List SchedEvent :=
  let start := cancelAllAlarms s
  alarms.foldl
    (fun acc a =>
      if a.isEnabled then
        let r := scheduleAlarm a now acc.1
        (r.1, acc.2 ++ r.2)
      else acc)
    start

/-- Registry effect of `triggerAlarm`'s post-fire step: for a real scheduled
alarm (id present, not `_manuallyTriggered`) the consumed occurrence is
spliced out and `scheduleAlarm` is immediately re-run on the same
definition. -/
def triggerAlarmSched (alarm : Alarm) (now : Instant) (s : SchedState) :
    SchedState × List SchedEvent :=
  match alarm._id with
  | some id =>
    if alarm._manuallyTriggered then (s, [])
    else
      scheduleAlarm alarm now
        ⟨s.activeAlarms.eraseP fun e => decide (e.id = id), s.nextTimerId⟩
  | none => (s, [])

/-- JS `x || d` on an optional non-negative number: undefined and 0 are falsy. -/
def jsOrNat : Option Nat → Nat → Nat
  | none, d => d
  | some 0, d => d
  | some (n + 1), _ => n + 1

/-- JS truthiness of an optional non-negative number. -/
def jsTruthyNat : Option Nat → Bool
  | some (_ + 1) => true
  | _ => false

/-- The snoozed one-shot copy built by `snoozeAlarm`: the time string is the
wall-clock HH:MM of `now + snoozeMinutes` (seconds are dropped by the
formatting; `Date.setMinutes` rolls into the next day on overflow), the
label is suffixed, and under `repeat_shorten` with a truthy `snoozeTime` the
next snooze duration becomes `Math.floor(snoozeTime * 0.8)` floored at 1. -/
def snoozeCopy (alarm : Alarm) (now : Instant) : Alarm :=
  let snoozeMinutes := jsOrNat alarm.snoozeTime 10
  let tday := (now.ms + snoozeMinutes * 60000) % msPerDay
  let base : Alarm :=
    { alarm with
      time := ⟨tday / 3600000, tday % 3600000 / 60000⟩,
      label := some (.snoozedOf (match alarm.label with
        | some t => t
        | none => .defaultLabel)) }
  if alarm.snoozeBehavior = some .repeat_shorten ∧ jsTruthyNat alarm.snoozeTime then
    { base with snoozeTime := some (max 1 (jsOrNat alarm.snoozeTime 10 * 4 / 5)) }
  else base

/-- `snoozeAlarm` from alarmScheduler.ts: stop the audio if a handle was
passed, derive the snoozed copy, apply the -5 habit delta, and hand the copy
to `scheduleAlarm`. -/
def snoozeAlarmFn (alarm : Alarm) (now : Instant) (audioPresent : Bool) (s : SchedState) :
    SchedState × List SchedEvent :=
  let stopEvs : List SchedEvent := if audioPresent then [.stopAudio] else []
  let r := scheduleAlarm (snoozeCopy alarm now) now s
  (r.1, stopEvs ++ [.healthDelta (-5)] ++ r.2)

/-- `dismissAlarm` from alarmScheduler.ts: stop the audio if present, then
apply +10 when the user woke up and -10 otherwise. -/
def dismissAlarmFn (didWakeUp : Bool) (audioPresent : Bool) : List SchedEvent :=
  (if audioPresent then [SchedEvent.stopAudio] else [])
    ++ [.healthDelta (if didWakeUp then 10 else -10)]

/-- The §3 registry invariant: no two occurrences share an alarm id. -/
def uniqueIds (l : List ActiveAlarm) : Prop :=
  l.Pairwise fun x y => x.id ≠ y.id

lemma countP_eraseP_eq_zero {α : Type} (p : α → Bool) :
    ∀ l : List α, l.countP p ≤ 1 → (l.eraseP p).countP p = 0 := by
  intro l
  induction l with
  | nil => intro _; rfl
  | cons a t ih =>
    intro h
    by_cases hp : p a
    · rw [List.eraseP_cons_of_pos hp]
      rw [List.countP_cons_of_pos _ _ hp] at h
      omega
    · rw [List.eraseP_cons_of_neg hp, List.countP_cons_of_neg _ _ hp]
      rw [List.countP_cons_of_neg _ _ hp] at h
      exact ih h

lemma uniqueIds_countP_le_one {id : Nat} :
    ∀ {l : List ActiveAlarm}, uniqueIds l →
      l.countP (fun e => decide (e.id = id)) ≤ 1 := by
  intro l
  induction l with
  | nil => intro _; simp
  | cons a t ih =>
    intro h
    obtain ⟨hne, ht⟩ := List.pairwise_cons.mp h
    by_cases hp : a.id = id
    · rw [List.countP_cons_of_pos _ _ (by simpa using hp)]
      have : t.countP (fun e => decide (e.id = id)) = 0 := by
        rw [List.countP_eq_zero]
        intro x hx
        simp only [decide_eq_true_eq]
        intro hxid
        exact hne x hx (hp.trans hxid.symm)
      omega
    · rw [List.countP_cons_of_neg _ _ (by simpa using hp)]
      exact ih ht

lemma uniqueIds_countP_eq_one {id : Nat} {l : List ActiveAlarm} {e : ActiveAlarm}
    (hu : uniqueIds l) (he : e ∈ l) (hid : e.id = id) :
    l.countP (fun x => decide (x.id = id)) = 1 := by
  have h1 : 0 < l.countP (fun x => decide (x.id = id)) :=
    List.countP_pos_iff.mpr ⟨e, he, by simpa using hid⟩
  have h2 := @uniqueIds_countP_le_one id l hu
  omega

lemma uniqueIds_append_singleton {l : List ActiveAlarm} {e : ActiveAlarm}
    (hu : uniqueIds l) (hnone : ∀ x ∈ l, x.id ≠ e.id) :
    uniqueIds (l ++ [e]) := by
  rw [uniqueIds, List.pairwise_append]
  exact ⟨hu, List.pairwise_singleton _ _, fun x hx y hy => by
    rw [List.mem_singleton] at hy
    subst hy
    exact hnone x hx⟩

lemma uniqueIds_eraseP {l : List ActiveAlarm} (p : ActiveAlarm → Bool)
    (hu : uniqueIds l) : uniqueIds (l.eraseP p) :=
  hu.sublist (List.eraseP_sublist _)

lemma areAlarmsEquivalent_refl (a : Alarm) : areAlarmsEquivalent a a = true := by
  simp [areAlarmsEquivalent]

lemma scheduleAlarm_post {a : Alarm} {now : Instant} {s : SchedState} {id : Nat} {t : Instant}
    (hu : uniqueIds s.activeAlarms) (hen : a.isEnabled = true)
    (hid : a._id = some id) (ht : getNextAlarmTime a now = some t) :
    uniqueIds (scheduleAlarm a now s).1.activeAlarms ∧
    (∃ e, (scheduleAlarm a now s).1.activeAlarms.find? (fun x => decide (x.id = id)) = some e ∧
      areAlarmsEquivalent e.alarm a = true ∧ e.scheduledTime = t) ∧
    (scheduleAlarm a now s).1.activeAlarms.countP (fun x => decide (x.id = id)) = 1 := by
  unfold scheduleAlarm
  rw [hen, hid, ht]
  simp only [Bool.true_eq_false, if_false]
  cases hfind : s.activeAlarms.find? fun e => decide (e.id = id) with
  | none =>
    have hall : ∀ x ∈ s.activeAlarms, ¬ (decide (x.id = id) = true) :=
      List.find?_eq_none.mp hfind
    simp only
    refine ⟨?_, ⟨⟨id, s.nextTimerId, a, t⟩, ?_, areAlarmsEquivalent_refl a, rfl⟩, ?_⟩
    · exact uniqueIds_append_singleton hu fun x hx => by simpa using hall x hx
    · rw [List.find?_append, hfind]
      simp
    · rw [List.countP_append, List.countP_eq_zero.mpr hall]
      simp
  | some existing =>
    simp only
    by_cases hcond : areAlarmsEquivalent existing.alarm a ∧ existing.scheduledTime = t
    · rw [if_pos hcond]
      have hmem : existing ∈ s.activeAlarms := List.mem_of_find?_eq_some hfind
      have hexid : existing.id = id := by simpa using List.find?_some hfind
      exact ⟨hu, ⟨existing, hfind, hcond.1, hcond.2⟩,
        uniqueIds_countP_eq_one hu hmem hexid⟩
    · rw [if_neg hcond]
      have hz : (s.activeAlarms.eraseP fun e => decide (e.id = id)).countP
          (fun e => decide (e.id = id)) = 0 :=
        countP_eraseP_eq_zero _ _ (uniqueIds_countP_le_one hu)
      have hall' : ∀ x ∈ s.activeAlarms.eraseP fun e => decide (e.id = id),
          ¬ (decide (x.id = id) = true) := List.countP_eq_zero.mp hz
      refine ⟨?_, ⟨⟨id, s.nextTimerId, a, t⟩, ?_, areAlarmsEquivalent_refl a, rfl⟩, ?_⟩
      · exact uniqueIds_append_singleton (uniqueIds_eraseP _ hu)
          fun x hx => by simpa using hall' x hx
      · rw [List.find?_append, List.find?_eq_none.mpr hall']
        simp
      · rw [List.countP_append, hz]
        simp

lemma scheduleAlarm_noop {a : Alarm} {now : Instant} {s1 : SchedState} {id : Nat}
    {t : Instant} {e : ActiveAlarm}
    (hen : a.isEnabled = true) (hid : a._id = some id) (ht : getNextAlarmTime a now = some t)
    (hfind : s1.activeAlarms.find? (fun x => decide (x.id = id)) = some e)
    (heq : areAlarmsEquivalent e.alarm a = true) (htime : e.scheduledTime = t) :
    scheduleAlarm a now s1 = (s1, []) := by
  unfold scheduleAlarm
  rw [hen, hid, ht]
  simp only [Bool.true_eq_false, if_false]
  rw [hfind]
  simp only
  rw [if_pos ⟨heq, htime⟩]

/-- C3: scheduling the same unchanged alarm twice in a row (same id, same
definition, same recomputed fire instant) leaves exactly one armed timer for
that id, and the second call is a pure no-op: it returns the state unchanged
and emits no `clearTimeout`/`setTimeout` event at all. -/
theorem C3_schedule_idempotent (a : Alarm) (now : Instant) (s : SchedState)
    (id : Nat) (t : Instant)
    (hu : uniqueIds s.activeAlarms) (hen : a.isEnabled = true)
    (hid : a._id = some id) (ht : getNextAlarmTime a now = some t) :
    scheduleAlarm a now (scheduleAlarm a now s).1 = ((scheduleAlarm a now s).1, []) ∧
    (scheduleAlarm a now s).1.activeAlarms.countP (fun x => decide (x.id = id)) = 1 := by
  obtain ⟨_, ⟨e, hfind, heq, htime⟩, hcount⟩ := scheduleAlarm_post hu hen hid ht
  exact ⟨scheduleAlarm_noop hen hid ht hfind heq htime, hcount⟩

/-- C3 witness: a concrete weekday alarm scheduled twice from the empty
registry; the hypotheses and the resolved fire time are checked by
evaluation. -/
theorem C3_schedule_idempotent_witness :
    (uniqueIds initState.activeAlarms ∧
      ({ _id := some 5, userId := 0, time := ⟨6, 30⟩, label := none,
         days := [WeekDay.Fri], isEnabled := true } : Alarm).isEnabled = true ∧
      ({ _id := some 5, userId := 0, time := ⟨6, 30⟩, label := none,
         days := [WeekDay.Fri], isEnabled := true } : Alarm)._id = some 5 ∧
      getNextAlarmTime
        { _id := some 5, userId := 0, time := ⟨6, 30⟩, label := none,
          days := [WeekDay.Fri], isEnabled := true } ⟨0, 0⟩ = some ⟨1, 23400000⟩) ∧
    (scheduleAlarm
        { _id := some 5, userId := 0, time := ⟨6, 30⟩, label := none,
          days := [WeekDay.Fri], isEnabled := true } ⟨0, 0⟩
        (scheduleAlarm
          { _id := some 5, userId := 0, time := ⟨6, 30⟩, label := none,
            days := [WeekDay.Fri], isEnabled := true } ⟨0, 0⟩ initState).1 =
      ((scheduleAlarm
          { _id := some 5, userId := 0, time := ⟨6, 30⟩, label := none,
            days := [WeekDay.Fri], isEnabled := true } ⟨0, 0⟩ initState).1, []) ∧
      (scheduleAlarm
          { _id := some 5, userId := 0, time := ⟨6, 30⟩, label := none,
            days := [WeekDay.Fri], isEnabled := true } ⟨0, 0⟩ initState).1.activeAlarms.countP
        (fun x => decide (x.id = 5)) = 1) :=
  ⟨⟨List.Pairwise.nil, rfl, rfl, by decide⟩,
    C3_schedule_idempotent
      { _id := some 5, userId := 0, time := ⟨6, 30⟩, label := none,
        days := [WeekDay.Fri], isEnabled := true }
      ⟨0, 0⟩ initState 5 ⟨1, 23400000⟩ List.Pairwise.nil rfl rfl (by decide)⟩

lemma scheduleAlarm_preserves_unique (a : Alarm) (now : Instant) (s : SchedState)
    (hu : uniqueIds s.activeAlarms) :
    uniqueIds (scheduleAlarm a now s).1.activeAlarms := by
  by_cases hen : a.isEnabled = true
  · cases hid : a._id with
    | none =>
      unfold scheduleAlarm
      rw [hen, hid]
      simpa using hu
    | some id =>
      cases ht : getNextAlarmTime a now with
      | none =>
        unfold scheduleAlarm
        rw [hen, hid, ht]
        simpa using hu
      | some t => exact (scheduleAlarm_post hu hen hid ht).1
  · unfold scheduleAlarm
    have : a.isEnabled = false := by
      cases h : a.isEnabled
      · rfl
      · exact absurd h hen
    rw [this]
    simpa using hu

lemma cancelAlarm_preserves_unique (alarmId : Nat) (s : SchedState)
    (hu : uniqueIds s.activeAlarms) :
    uniqueIds (cancelAlarm alarmId s).1.activeAlarms := by
  unfold cancelAlarm
  cases hfind : s.activeAlarms.find? fun e => decide (e.id = alarmId) with
  | none => simpa using hu
  | some e => exact uniqueIds_eraseP _ hu

lemma scheduleAll_fold_preserves_unique (now : Instant) :
    ∀ (alarms : List Alarm) (acc : SchedState × List SchedEvent),
      uniqueIds acc.1.activeAlarms →
      uniqueIds ((alarms.foldl
        (fun acc a =>
          if a.isEnabled then
            let r := scheduleAlarm a now acc.1
            (r.1, acc.2 ++ r.2)
          else acc) acc).1).activeAlarms := by
  intro alarms
  induction alarms with
  | nil => intro acc h; simpa using h
  | cons a rest ih =>
    intro acc h
    rw [List.foldl_cons]
    apply ih
    by_cases he : a.isEnabled
    · simp only [if_pos he]
      exact scheduleAlarm_preserves_unique a now acc.1 h
    · simpa [if_neg he] using h

lemma scheduleAllAlarms_preserves_unique (alarms : List Alarm) (now : Instant)
    (s : SchedState) :
    uniqueIds (scheduleAllAlarms alarms now s).1.activeAlarms := by
  unfold scheduleAllAlarms
  exact scheduleAll_fold_preserves_unique now alarms (cancelAllAlarms s) List.Pairwise.nil

lemma triggerAlarmSched_preserves_unique (a : Alarm) (now : Instant) (s : SchedState)
    (hu : uniqueIds s.activeAlarms) :
    uniqueIds (triggerAlarmSched a now s).1.activeAlarms := by
  unfold triggerAlarmSched
  cases hid : a._id with
  | none => simpa using hu
  | some id =>
    by_cases hman : a._manuallyTriggered
    · simpa [hman] using hu
    · simp only [hman, Bool.false_eq_true, if_false]
      exact scheduleAlarm_preserves_unique a now _ (uniqueIds_eraseP _ hu)

lemma snoozeAlarmFn_preserves_unique (a : Alarm) (now : Instant) (ap : Bool)
    (s : SchedState) (hu : uniqueIds s.activeAlarms) :
    uniqueIds (snoozeAlarmFn a now ap s).1.activeAlarms := by
  unfold snoozeAlarmFn
  exact scheduleAlarm_preserves_unique _ now s hu

/-- One engine operation on the registry state: every exported scheduler
entry point plus timer expiry (`triggerAlarm`'s registry step). -/
inductive SchedStep : SchedState → SchedState → Prop
  | schedule (a : Alarm) (now : Instant) (s : SchedState) :
      SchedStep s (scheduleAlarm a now s).1
  | cancel (alarmId : Nat) (s : SchedState) :
      SchedStep s (cancelAlarm alarmId s).1
  | cancelAll (s : SchedState) :
      SchedStep s (cancelAllAlarms s).1
  | scheduleAll (alarms : List Alarm) (now : Instant) (s : SchedState) :
      SchedStep s (scheduleAllAlarms alarms now s).1
  | trigger (a : Alarm) (now : Instant) (s : SchedState) :
      SchedStep s (triggerAlarmSched a now s).1
  | snooze (a : Alarm) (now : Instant) (ap : Bool) (s : SchedState) :
      SchedStep s (snoozeAlarmFn a now ap s).1

/-- Registry states reachable from the initial empty registry by any
sequence of engine operations. -/
def ReachableSched (s : SchedState) : Prop :=
  Relation.ReflTransGen SchedStep initState s

lemma SchedStep.preserves_unique {s1 s2 : SchedState} (h : SchedStep s1 s2)
    (hu : uniqueIds s1.activeAlarms) : uniqueIds s2.activeAlarms := by
  cases h with
  | schedule a now => exact scheduleAlarm_preserves_unique a now s1 hu
  | cancel alarmId => exact cancelAlarm_preserves_unique alarmId s1 hu
  | cancelAll => exact List.Pairwise.nil
  | scheduleAll alarms now => exact scheduleAllAlarms_preserves_unique alarms now s1
  | trigger a now => exact triggerAlarmSched_preserves_unique a now s1 hu
  | snooze a now ap => exact snoozeAlarmFn_preserves_unique a now ap s1 hu

/-- C8: in every reachable registry state the `activeAlarms` table holds at
most one occurrence per alarm id. -/
theorem C8_registry_at_most_one_per_id (s : SchedState) (h : ReachableSched s) :
    uniqueIds s.activeAlarms := by
  induction h with
  | refl => exact List.Pairwise.nil
  | tail _ hstep ih => exact hstep.preserves_unique ih

/-- C8 witness: the state reached by scheduling a concrete alarm and then
letting its timer fire (which re-arms the next occurrence) is reachable, and
the theorem yields uniqueness of ids there. -/
theorem C8_registry_at_most_one_per_id_witness :
    ReachableSched
      (triggerAlarmSched
        { _id := some 3, userId := 0, time := ⟨7, 0⟩, label := none,
          days := [WeekDay.Mon], isEnabled := true } ⟨4, 25200000⟩
        (scheduleAlarm
          { _id := some 3, userId := 0, time := ⟨7, 0⟩, label := none,
            days := [WeekDay.Mon], isEnabled := true } ⟨0, 0⟩ initState).1).1 ∧
    uniqueIds
      (triggerAlarmSched
        { _id := some 3, userId := 0, time := ⟨7, 0⟩, label := none,
          days := [WeekDay.Mon], isEnabled := true } ⟨4, 25200000⟩
        (scheduleAlarm
          { _id := some 3, userId := 0, time := ⟨7, 0⟩, label := none,
            days := [WeekDay.Mon], isEnabled := true } ⟨0, 0⟩ initState).1).1.activeAlarms :=
  ⟨Relation.ReflTransGen.tail
      (Relation.ReflTransGen.single (SchedStep.schedule _ _ _))
      (SchedStep.trigger _ _ _),
    C8_registry_at_most_one_per_id _
      (Relation.ReflTransGen.tail
        (Relation.ReflTransGen.single (SchedStep.schedule _ _ _))
        (SchedStep.trigger _ _ _))⟩

lemma scheduleAlarm_mem {a : Alarm} {now : Instant} {s : SchedState} {id : Nat} {t : Instant}
    (hen : a.isEnabled = true) (hid : a._id = some id) (ht : getNextAlarmTime a now = some t) :
    ∃ e ∈ (scheduleAlarm a now s).1.activeAlarms, e.id = id ∧ e.scheduledTime = t := by
  unfold scheduleAlarm
  rw [hen, hid, ht]
  simp only [Bool.true_eq_false, if_false]
  cases hfind : s.activeAlarms.find? fun e => decide (e.id = id) with
  | none =>
    simp only
    exact ⟨⟨id, s.nextTimerId, a, t⟩, by simp, rfl, rfl⟩
  | some existing =>
    simp only
    by_cases hcond : areAlarmsEquivalent existing.alarm a ∧ existing.scheduledTime = t
    · rw [if_pos hcond]
      exact ⟨existing, List.mem_of_find?_eq_some hfind,
        by simpa using List.find?_some hfind, hcond.2⟩
    · rw [if_neg hcond]
      exact ⟨⟨id, s.nextTimerId, a, t⟩, by simp, rfl, rfl⟩

lemma jsOrNat_ten_pos (o : Option Nat) : 1 ≤ jsOrNat o 10 := by
  match o with
  | none => simp [jsOrNat]
  | some 0 => simp [jsOrNat]
  | some (n + 1) => simp [jsOrNat]

lemma snoozeCopy_fields (a : Alarm) (now : Instant) :
    (snoozeCopy a now).days = a.days ∧
    (snoozeCopy a now).isEnabled = a.isEnabled ∧
    (snoozeCopy a now)._id = a._id ∧
    (snoozeCopy a now).time =
      ⟨(now.ms + jsOrNat a.snoozeTime 10 * 60000) % msPerDay / 3600000,
        (now.ms + jsOrNat a.snoozeTime 10 * 60000) % msPerDay % 3600000 / 60000⟩ ∧
    (snoozeCopy a now).label = some (.snoozedOf (match a.label with
      | some t => t
      | none => .defaultLabel)) := by
  unfold snoozeCopy
  by_cases hc : a.snoozeBehavior = some .repeat_shorten ∧ jsTruthyNat a.snoozeTime
  · rw [if_pos hc]
    exact ⟨rfl, rfl, rfl, rfl, rfl⟩
  · rw [if_neg hc]
    exact ⟨rfl, rfl, rfl, rfl, rfl⟩

lemma getNextAlarmTime_snoozeCopy (a : Alarm) (now : Instant)
    (hday : dayMap now.getDay ∈ a.days)
    (hwrap : now.ms + jsOrNat a.snoozeTime 10 * 60000 < msPerDay) :
    getNextAlarmTime (snoozeCopy a now) now =
      some ⟨now.day, (now.ms + jsOrNat a.snoozeTime 10 * 60000) / 60000 * 60000⟩ := by
  obtain ⟨hdays, _, _, htime, _⟩ := snoozeCopy_fields a now
  have hmod : (now.ms + jsOrNat a.snoozeTime 10 * 60000) % msPerDay
      = now.ms + jsOrNat a.snoozeTime 10 * 60000 := Nat.mod_eq_of_lt hwrap
  have htarget : (snoozeCopy a now).time.targetMs
      = (now.ms + jsOrNat a.snoozeTime 10 * 60000) / 60000 * 60000 := by
    rw [htime]
    unfold TimeOfDay.targetMs
    dsimp only
    rw [hmod]
    have hm := jsOrNat_ten_pos a.snoozeTime
    omega
  have hfuture : (snoozeCopy a now).time.targetMs > now.ms := by
    rw [htarget]
    have hm := jsOrNat_ten_pos a.snoozeTime
    omega
  unfold getNextAlarmTime
  rw [if_pos ⟨(any_isToday_iff _ now).mpr (by rw [hdays]; exact hday), hfuture⟩, htarget]

/-- Concrete Thursday 07:00 alarm with a 10-minute snooze, used to check the
snooze arithmetic on explicit instants. -/
def snzAlarm : Alarm :=
  { _id := some 1, userId := 0, time := ⟨7, 0⟩, label := none,
    days := [WeekDay.Thu], isEnabled := true, isSnoozeEnabled := true,
    snoozeTime := some 10, snoozeBehavior := some .«repeat» }

/-- C4 (amended): `snoozeAlarm` stops the audio, applies the -5 delta,
derives a label-suffixed copy, and hands it to `scheduleAlarm`, which
re-resolves the copy's "HH:MM" time string from scratch.  Provided today's
weekday is in the alarm's active-day set and `now + snoozeMinutes` stays
within the current local day, the armed occurrence is at
`now + snoozeMinutes` truncated to the whole minute (the copy stores only
"HH:MM", dropping seconds): strictly in the future, at most `snoozeMinutes`
ahead, and exactly `now + snoozeMinutes` whenever `now` lies on a whole
minute — snoozing at 07:00:00 with `snoozeTime = 10` arms exactly 07:10:00.
Outside those conditions the re-resolution can arm much later: the final
conjunct shows a Thursdays-only alarm snoozed at Thursday 23:55 arming
*next Thursday* 00:05 (the rolled-over "00:05" has already passed, so the
1..7-day scan lands a week out). -/
theorem C4_snooze_arms_truncated_instant (a : Alarm) (now : Instant) (ap : Bool)
    (s : SchedState) (id : Nat)
    (hid : a._id = some id) (hen : a.isEnabled = true)
    (hday : dayMap now.getDay ∈ a.days)
    (hwrap : now.ms + jsOrNat a.snoozeTime 10 * 60000 < msPerDay) :
    (∃ e ∈ (snoozeAlarmFn a now ap s).1.activeAlarms, e.id = id ∧
      e.scheduledTime =
        ⟨now.day, (now.ms + jsOrNat a.snoozeTime 10 * 60000) / 60000 * 60000⟩) ∧
    SchedEvent.healthDelta (-5) ∈ (snoozeAlarmFn a now ap s).2 ∧
    (ap = true → SchedEvent.stopAudio ∈ (snoozeAlarmFn a now ap s).2) ∧
    (snoozeCopy a now).label = some (.snoozedOf (match a.label with
      | some t => t
      | none => .defaultLabel)) ∧
    now.toMs <
      (⟨now.day, (now.ms + jsOrNat a.snoozeTime 10 * 60000) / 60000 * 60000⟩ : Instant).toMs ∧
    (⟨now.day, (now.ms + jsOrNat a.snoozeTime 10 * 60000) / 60000 * 60000⟩ : Instant).toMs ≤
      now.toMs + jsOrNat a.snoozeTime 10 * 60000 ∧
    (now.ms % 60000 = 0 →
      (⟨now.day, (now.ms + jsOrNat a.snoozeTime 10 * 60000) / 60000 * 60000⟩ : Instant).toMs =
        now.toMs + jsOrNat a.snoozeTime 10 * 60000) ∧
    ((snoozeAlarmFn snzAlarm ⟨0, 86100000⟩ true initState).1.activeAlarms.map
        fun e => e.scheduledTime) = [⟨7, 300000⟩] ∧
    Instant.toMs ⟨0, 86100000⟩ + 10 * 60000 < Instant.toMs ⟨7, 300000⟩ := by
  obtain ⟨hdays, hen', hid', _, hlabel⟩ := snoozeCopy_fields a now
  have hm := jsOrNat_ten_pos a.snoozeTime
  refine ⟨?_, ?_, ?_, hlabel, ?_, ?_, ?_, by decide, by decide⟩
  · have := @scheduleAlarm_mem (snoozeCopy a now) now s id _
      (hen'.trans hen) (hid'.trans hid) (getNextAlarmTime_snoozeCopy a now hday hwrap)
    simpa [snoozeAlarmFn] using this
  · simp [snoozeAlarmFn]
  · intro hap
    simp [snoozeAlarmFn, hap]
  · simp only [Instant.toMs]
    omega
  · simp only [Instant.toMs]
    omega
  · intro hz
    simp only [Instant.toMs]
    omega

/-- C4 counterexample: snoozing at 07:00:30 (day 0 is a Thursday; 25230000 ms
after midnight) with `snoozeTime = 10` arms the occurrence at 07:10:00.000
(25800000 ms), not at `now + 10` minutes = 07:10:30; the "HH:MM" copy drops
the seconds, so the claimed exact `now + snoozeTime` instant is wrong. -/
theorem C4_counterexample_seconds_dropped :
    ((snoozeAlarmFn snzAlarm ⟨0, 25230000⟩ true initState).1.activeAlarms.map
      fun e => e.scheduledTime) = [⟨0, 25800000⟩] ∧
    Instant.toMs ⟨0, 25800000⟩ ≠ Instant.toMs ⟨0, 25230000⟩ + 10 * 60000 := by
  constructor
  · decide
  · decide

/-- C4 witness: at 07:00:00.000 sharp the truncation is exact, so the armed
instant is exactly `now + 10` minutes (07:10:00), together with the -5 delta
and the stop-audio effect. -/
theorem C4_snooze_arms_truncated_instant_witness :
    (snzAlarm._id = some 1 ∧ snzAlarm.isEnabled = true ∧
      dayMap (Instant.getDay ⟨0, 25200000⟩) ∈ snzAlarm.days ∧
      (⟨0, 25200000⟩ : Instant).ms + jsOrNat snzAlarm.snoozeTime 10 * 60000 < msPerDay) ∧
    (∃ e ∈ (snoozeAlarmFn snzAlarm ⟨0, 25200000⟩ true initState).1.activeAlarms,
      e.id = 1 ∧ e.scheduledTime = ⟨0, 25800000⟩) ∧
    SchedEvent.healthDelta (-5) ∈ (snoozeAlarmFn snzAlarm ⟨0, 25200000⟩ true initState).2 :=
  ⟨⟨rfl, rfl, by decide, by decide⟩,
    (C4_snooze_arms_truncated_instant snzAlarm ⟨0, 25200000⟩ true initState 1
      rfl rfl (by decide) (by decide)).1,
    (C4_snooze_arms_truncated_instant snzAlarm ⟨0, 25200000⟩ true initState 1
      rfl rfl (by decide) (by decide)).2.1⟩

lemma snoozeCopy_snoozeTime (a : Alarm) (now : Instant) :
    (snoozeCopy a now).snoozeTime =
      if a.snoozeBehavior = some .repeat_shorten ∧ jsTruthyNat a.snoozeTime then
        some (max 1 (jsOrNat a.snoozeTime 10 * 4 / 5))
      else a.snoozeTime := by
  unfold snoozeCopy
  by_cases hc : a.snoozeBehavior = some .repeat_shorten ∧ jsTruthyNat a.snoozeTime
  · rw [if_pos hc, if_pos hc]
  · rw [if_neg hc, if_neg hc]

/-- Iterated snoozing at a fixed instant: the alarm after `k` consecutive
derivations of the snoozed copy. -/
def snoozeIter (a : Alarm) (now : Instant) : Nat → Alarm
  | 0 => a
  | k + 1 => snoozeCopy (snoozeIter a now k) now

lemma jsOrNat_some_pos {n : Nat} (hn : 1 ≤ n) : jsOrNat (some n) 10 = n := by
  match n, hn with
  | n + 1, _ => rfl

lemma jsTruthyNat_some_pos {n : Nat} (hn : 1 ≤ n) : jsTruthyNat (some n) = true := by
  match n, hn with
  | n + 1, _ => rfl

lemma snoozeIter_snoozeTime_pos (a : Alarm) (now : Instant) (m : Nat)
    (hm : a.snoozeTime = some m) (h1 : 1 ≤ m) :
    ∀ k, ∃ m', (snoozeIter a now k).snoozeTime = some m' ∧ 1 ≤ m' := by
  intro k
  induction k with
  | zero => exact ⟨m, hm, h1⟩
  | succ k ih =>
    obtain ⟨m', hm', h1'⟩ := ih
    rw [snoozeIter, snoozeCopy_snoozeTime]
    by_cases hc : (snoozeIter a now k).snoozeBehavior = some .repeat_shorten ∧
        jsTruthyNat (snoozeIter a now k).snoozeTime
    · rw [if_pos hc]
      exact ⟨_, rfl, le_max_left 1 _⟩
    · rw [if_neg hc]
      exact ⟨m', hm', h1'⟩

/-- Concrete `repeat_shorten` alarm with initial 10-minute snooze. -/
def shortenAlarm : Alarm :=
  { _id := some 2, userId := 0, time := ⟨7, 0⟩, label := none,
    days := [WeekDay.Thu], isEnabled := true, isSnoozeEnabled := true,
    snoozeTime := some 10, snoozeBehavior := some .repeat_shorten }

/-- C9: under `repeat_shorten` with a set (truthy) snooze duration `n`, one
snooze stores `max 1 (floor(n * 0.8))` as the next duration; iterating never
drives the stored duration below 1 minute; and from 10 the successive
effective durations are 10, 8, 6, 4. -/
theorem C9_repeat_shorten_floor (a : Alarm) (now : Instant) (n : Nat)
    (hb : a.snoozeBehavior = some .repeat_shorten) (hst : a.snoozeTime = some n)
    (hn : 1 ≤ n) :
    (snoozeCopy a now).snoozeTime = some (max 1 (n * 4 / 5)) ∧
    (∀ k, ∃ m, (snoozeIter a now k).snoozeTime = some m ∧ 1 ≤ m) ∧
    List.map (fun k => jsOrNat (snoozeIter shortenAlarm ⟨0, 25200000⟩ k).snoozeTime 10)
      [0, 1, 2, 3] = [10, 8, 6, 4] := by
  refine ⟨?_, snoozeIter_snoozeTime_pos a now n hst hn, by decide⟩
  rw [snoozeCopy_snoozeTime, if_pos ⟨hb, hst ▸ jsTruthyNat_some_pos hn⟩, hst,
    jsOrNat_some_pos hn]

/-- C9 witness: the shortening applied to the concrete alarm, and positivity
after seven iterated snoozes (10, 8, 6, 4, 3, 2, 1, then floored at 1). -/
theorem C9_repeat_shorten_floor_witness :
    (shortenAlarm.snoozeBehavior = some .repeat_shorten ∧
      shortenAlarm.snoozeTime = some 10 ∧ 1 ≤ 10) ∧
    (snoozeCopy shortenAlarm ⟨0, 25200000⟩).snoozeTime = some 8 ∧
    (∃ m, (snoozeIter shortenAlarm ⟨0, 25200000⟩ 7).snoozeTime = some m ∧ 1 ≤ m) :=
  ⟨⟨rfl, rfl, by decide⟩,
    (C9_repeat_shorten_floor shortenAlarm ⟨0, 25200000⟩ 10 rfl rfl (by decide)).1,
    (C9_repeat_shorten_floor shortenAlarm ⟨0, 25200000⟩ 10 rfl rfl (by decide)).2.1 7⟩

/-- The user profile fields that `updatePlantHealth` reads and writes
(`User` in src/types; both are optional numbers in the document). -/
structure User where
  plantHealth : Option Int
  plantLevel : Option Int
deriving DecidableEq, Repr

/-- JS `x || d` on an optional number: undefined and 0 are falsy. -/
def jsOrInt : Option Int → Int → Int
  | none, d => d
  | some x, d => if x = 0 then d else x

/-- `updatePlantHealth` from the userService section of ttsService.ts:
read the current health with the `user.plantHealth || 100` fallback, add the
delta, clamp to [0, 100], derive the level as `Math.ceil(newHealth / 20)`
(equal to `(newHealth + 19) / 20` for the clamped non-negative value), and
store both. -/
def updatePlantHealth (user : User) (healthChange : Int) : User :=
  let newHealth := max 0 (min 100 (jsOrInt user.plantHealth 100 + healthChange))
  let newLevel := (newHealth + 19) / 20
  { user with plantHealth := some newHealth, plantLevel := some newLevel }

/-- C6: at stored health 5 a -5 delta clamps the score to 0 — inside the
claimed [0, 100] — but stores level `ceil(0 / 20) = 0`, outside the
documented 1..5 range ("Level 1: 0-20" in the function's own comment), so
the claimed tier bound fails exactly at score 0. -/
theorem C6_level_zero_at_score_zero :
    (updatePlantHealth ⟨some 5, some 1⟩ (-5)).plantHealth = some 0 ∧
    (updatePlantHealth ⟨some 5, some 1⟩ (-5)).plantLevel = some 0 ∧
    ¬ (∃ lvl, (updatePlantHealth ⟨some 5, some 1⟩ (-5)).plantLevel = some lvl ∧
        1 ≤ lvl ∧ lvl ≤ 5) := by
  refine ⟨by decide, by decide, ?_⟩
  rintro ⟨lvl, hlvl, h1, _⟩
  have : lvl = 0 := by
    have h0 : (updatePlantHealth ⟨some 5, some 1⟩ (-5)).plantLevel = some 0 := by decide
    rw [h0] at hlvl
    exact (Option.some_inj.mp hlvl).symm
  omega

/-- C10: a stored health of exactly 0 is falsy, so `user.plantHealth || 100`
evaluates to 100: the update behaves exactly as for a missing score, and any
delta is applied to 100 and clamped — +10 at stored 0 stores 100, not 10. -/
theorem C10_zero_health_treated_as_missing (u : User) (delta : Int)
    (h : u.plantHealth = some 0) :
    updatePlantHealth u delta = updatePlantHealth { u with plantHealth := none } delta ∧
    (updatePlantHealth u delta).plantHealth = some (max 0 (min 100 (100 + delta))) := by
  unfold updatePlantHealth jsOrInt
  rw [h]
  exact ⟨rfl, rfl⟩

/-- C10 witness: at stored 0 a +10 delta stores 100 (clamped from 110),
identically to the missing-score case. -/
theorem C10_zero_health_treated_as_missing_witness :
    (⟨some 0, some 1⟩ : User).plantHealth = some 0 ∧
    updatePlantHealth ⟨some 0, some 1⟩ 10 = updatePlantHealth ⟨none, some 1⟩ 10 ∧
    (updatePlantHealth ⟨some 0, some 1⟩ 10).plantHealth = some (max 0 (min 100 (100 + 10))) :=
  ⟨rfl,
    (C10_zero_health_treated_as_missing ⟨some 0, some 1⟩ 10 rfl).1,
    (C10_zero_health_treated_as_missing ⟨some 0, some 1⟩ 10 rfl).2⟩

/-- The three `DisplayState` values of AlarmDisplay.tsx. -/
inductive DisplayStateK
  | initial | wakeup | snooze
deriving DecidableEq, Repr

/-- Sleep-feeling choices offered after waking up. -/
inductive Feeling
  | bad | neutral | good
deriving DecidableEq, Repr

/-- The AlarmDisplay component's per-session state: the React `useState`
hooks, whether the component is still mounted (the Dashboard unmounts it via
the `onDismiss` callback, destroying the session), whether the audio handle
was paused, and the ordered history of habit-score deltas passed to
`updatePlantHealth` by `dismissAlarm`/`snoozeAlarm`. -/
structure DisplayModel where
  displayState : DisplayStateK
  tapCount : Nat
  wakeUpEnabled : Bool
  sleepFeeling : Option Feeling
  mounted : Bool
  audioStopped : Bool
  deltas : List Int
deriving DecidableEq, Repr

/-- A freshly fired session: state `initial`, tap counter 50, mounted. -/
def initDisplay : DisplayModel :=
  { displayState := .initial, tapCount := 50, wakeUpEnabled := false,
    sleepFeeling := none, mounted := true, audioStopped := false, deltas := [] }

/-- Effect of a `dismissAlarm(alarm, userId, didWakeUp, audio)` call: pause
the audio and apply +10 (woke up) or -10 (did not) via `updatePlantHealth`.
The extra 5th argument passed at the wake-up call site does not exist in
`dismissAlarm`'s signature and is ignored by JS. -/
def applyDismissAlarm (didWakeUp : Bool) (m : DisplayModel) : DisplayModel :=
  { m with
    audioStopped := true
    deltas := m.deltas ++ [if didWakeUp then 10 else -10] }

/-- `handleDismiss` in AlarmDisplay.tsx: run `dismissAlarm`, then invoke the
Dashboard's `onDismiss`, which unmounts the component. -/
def handleDismiss (wokeUpOnTime : Bool) (m : DisplayModel) : DisplayModel :=
  { applyDismissAlarm wokeUpOnTime m with mounted := false }

/-- `handleWakeUp`: from `initial` or `snooze`, switch to the `wakeup`
sub-state and immediately call `dismissAlarm(..., true, audio, false)`
("inform backend"), without unmounting; in `wakeup` it does nothing. -/
def handleWakeUp (m : DisplayModel) : DisplayModel :=
  if m.displayState = .initial ∨ m.displayState = .snooze then
    applyDismissAlarm true { m with displayState := .wakeup }
  else m

/-- `handleSleepFeelingSelect`: record the feeling, then (after a visual
delay) `handleDismiss(true)` — which calls `dismissAlarm` with +10 again. -/
def handleSleepFeelingSelect (f : Feeling) (m : DisplayModel) : DisplayModel :=
  handleDismiss true { m with sleepFeeling := some f }

/-- `handleSnooze`: back to `initial` visually, run `snoozeAlarm` (stop
audio, -5, arm the snoozed copy), then `onDismiss` unmounts the UI. -/
def handleSnooze (m : DisplayModel) : DisplayModel :=
  { m with
    displayState := .initial
    audioStopped := true
    deltas := m.deltas ++ [-5]
    mounted := false }

/-- `handleIgnoreAlarm`: in the `snooze` sub-state each tap decrements the
counter and at 0 runs `handleDismiss(false)` (-10, unmount), the counter
being floored at 0; from `initial` the first tap only enters the `snooze`
sub-state, resets the counter to 50 and (after a 5 s timeout, modelled as
immediate) enables the wake-up button; in `wakeup` it does nothing. -/
def handleIgnoreAlarm (m : DisplayModel) : DisplayModel :=
  if m.displayState = .snooze then
    let newCount := m.tapCount - 1
    let m1 := if newCount = 0 then handleDismiss false m else m
    { m1 with tapCount := newCount }
  else if m.displayState = .initial then
    { m with displayState := .snooze, wakeUpEnabled := true, tapCount := 50 }
  else m

/-- User events a ringing session can receive. -/
inductive UIEvent
  | wakeUp
  | snoozeBtn
  | ignoreBtn
  | feelingSelect (f : Feeling)
deriving DecidableEq, Repr

/-- Deliver one user event to the component.  An unmounted component has no
rendered buttons, so a destroyed session receives nothing: events on it are
no-ops. -/
def dispatch (e : UIEvent) (m : DisplayModel) : DisplayModel :=
  if m.mounted then
    match e with
    | .wakeUp => handleWakeUp m
    | .snoozeBtn => handleSnooze m
    | .ignoreBtn => handleIgnoreAlarm m
    | .feelingSelect f => handleSleepFeelingSelect f m
  else m

/-- Deliver a sequence of user events in order. -/
def runEvents (es : List UIEvent) (m : DisplayModel) : DisplayModel :=
  es.foldl (fun m e => dispatch e m) m

/-- C2: the normal wake-up flow — press "Wake Up!", then choose a sleep
feeling — makes the session call `updatePlantHealth` with +10 twice, once
from `handleWakeUp`'s `dismissAlarm(..., true, audio, false)` and once more
from `handleSleepFeelingSelect`'s `handleDismiss(true)`, instead of the
claimed exactly-once terminal application. -/
theorem C2_wakeup_flow_applies_delta_twice :
    (runEvents [.wakeUp, .feelingSelect .good] initDisplay).deltas = [10, 10] ∧
    (runEvents [.wakeUp, .feelingSelect .good] initDisplay).mounted = false ∧
    (runEvents [.wakeUp, .feelingSelect .good] initDisplay).deltas ≠ [10] := by
  refine ⟨by decide, by decide, by decide⟩

set_option maxRecDepth 20000

/-- C5 counterexample: 50 consecutive ignore presses on a fresh session do
not terminate it — the first press only switches `initial → snooze` and
resets the counter to 50, so after 50 presses the counter stands at 1, the
session is still mounted, and no -10 (indeed no delta at all) was applied;
the claimed "-10 on the 50th call" is false. -/
theorem C5_counterexample_50_taps_not_terminal :
    ((dispatch .ignoreBtn)^[50] initDisplay).deltas = [] ∧
    ((dispatch .ignoreBtn)^[50] initDisplay).mounted = true ∧
    ((dispatch .ignoreBtn)^[50] initDisplay).tapCount = 1 := by
  refine ⟨by decide, by decide, by decide⟩

/-- C5 (amended): on a fresh session the 51st consecutive ignore press is the
terminal one — the first press enters the tapping sub-state and resets the
counter to 50, each following press decrements it, and the press that drives
it to 0 applies -10 exactly once and destroys the session; every further
ignore press on the destroyed session is a no-op. -/
theorem C5_ignore_requires_51_taps :
    ((dispatch .ignoreBtn)^[51] initDisplay).deltas = [-10] ∧
    ((dispatch .ignoreBtn)^[51] initDisplay).mounted = false ∧
    ∀ k, 51 ≤ k →
      (dispatch .ignoreBtn)^[k] initDisplay = (dispatch .ignoreBtn)^[51] initDisplay := by
  refine ⟨by decide, by decide, ?_⟩
  intro k hk
  obtain ⟨j, rfl⟩ : ∃ j, k = j + 51 := ⟨k - 51, by omega⟩
  rw [Function.iterate_add_apply]
  exact Function.iterate_fixed (by decide) j

/-- C5 witness: a 52nd ignore press changes nothing. -/
theorem C5_ignore_requires_51_taps_witness :
    51 ≤ 52 ∧
    (dispatch .ignoreBtn)^[52] initDisplay = (dispatch .ignoreBtn)^[51] initDisplay :=
  ⟨by omega, C5_ignore_requires_51_taps.2.2 52 (by omega)⟩

/-- The normal scheduler path test of `triggerAlarm`:
`alarm._id && !alarm._manuallyTriggered`. -/
def normalPath (a : Alarm) : Bool := a._id.isSome && !a._manuallyTriggered

/-- One task of the single-threaded host event loop: either a timer expiry
running `triggerAlarm` (creating ringing session `sid`), or the processing
of a user's terminal action (confirm / snooze / ignore resolution) on an
existing session.  `triggerAlarm` contains no `await` before its re-arm
step, so the whole firing — including "remove consumed occurrence and
re-schedule" — runs inside one task, while a button press is always handled
as a separate, later task. -/
inductive LoopTask
  | fire (sid : Nat) (a : Alarm)
  | userAction (sid : Nat) (e : UIEvent)
deriving DecidableEq, Repr

/-- Observable milestones of the trigger pipeline and lifecycle machine. -/
inductive LoopEvt
  | sessionShown (sid : Nat)
  | rearmed (sid : Nat)
  | terminalProcessed (sid : Nat)
deriving DecidableEq, Repr

/-- Events emitted by one task, in source order: `triggerAlarm` invokes the
presentation callback and then, on the normal scheduler path only, removes
the consumed occurrence and calls `scheduleAlarm` again; a user-action task
processes the terminal transition. -/
def taskEvents : LoopTask → List LoopEvt
  | .fire sid a => .sessionShown sid :: (if normalPath a then [.rearmed sid] else [])
  | .userAction sid _ => [.terminalProcessed sid]

/-- The flat event sequence of a task list run to completion in order
(single-threaded event loop: tasks never interleave). -/
def loopEvents : List LoopTask → List LoopEvt
  | [] => []
  | t :: ts => taskEvents t ++ loopEvents ts

/-- Well-formed schedules relative to the set of already-created session
ids: a user action can only be queued on a session some earlier firing
created, and session ids are fresh. -/
def ValidSchedule : List Nat → List LoopTask → Bool
  | _, [] => true
  | created, .fire sid _ :: ts => !created.contains sid && ValidSchedule (sid :: created) ts
  | created, .userAction sid _ :: ts => created.contains sid && ValidSchedule created ts

lemma append_eq_append_cons {α : Type} {b : α} :
    ∀ {h rest X Y : List α}, h ++ rest = X ++ b :: Y → b ∉ h →
      ∃ X2, X = h ++ X2 ∧ rest = X2 ++ b :: Y := by
  intro h
  induction h with
  | nil =>
    intro rest X Y heq _
    exact ⟨X, rfl, heq⟩
  | cons x h ih =>
    intro rest X Y heq hb
    cases X with
    | nil =>
      rw [List.nil_append, List.cons_append] at heq
      have hx : x = b := (List.cons_eq_cons.mp heq).1
      exact absurd (hx ▸ List.mem_cons_self x h) hb
    | cons x' X' =>
      rw [List.cons_append, List.cons_append] at heq
      obtain ⟨hxx, heq'⟩ := List.cons_eq_cons.mp heq
      obtain ⟨X2, hX, hrest⟩ := ih heq' fun hmem => hb (List.mem_cons_of_mem x hmem)
      exact ⟨X2, by rw [hX, hxx, List.cons_append], hrest⟩

lemma terminal_not_in_fire_events (sid sid' : Nat) (a : Alarm) :
    LoopEvt.terminalProcessed sid ∉ taskEvents (.fire sid' a) := by
  unfold taskEvents
  cases normalPath a <;> simp

lemma loopEvents_rearm_before_terminal :
    ∀ (ts : List LoopTask) (created : List Nat) (sid : Nat) (X Y : List LoopEvt),
      ValidSchedule created ts = true →
      sid ∉ created →
      (∀ a, LoopTask.fire sid a ∈ ts → normalPath a = true) →
      loopEvents ts = X ++ LoopEvt.terminalProcessed sid :: Y →
      LoopEvt.rearmed sid ∈ X := by
  intro ts
  induction ts with
  | nil =>
    intro created sid X Y _ _ _ heq
    rw [loopEvents] at heq
    cases X <;> simp at heq
  | cons t ts ih =>
    intro created sid X Y hv hnotin hnormal heq
    rw [loopEvents] at heq
    cases t with
    | fire sid' a =>
      rw [ValidSchedule, Bool.and_eq_true] at hv
      obtain ⟨X2, rfl, hrest⟩ :=
        append_eq_append_cons heq (terminal_not_in_fire_events sid sid' a)
      by_cases hsid : sid' = sid
      · subst hsid
        have hnp : normalPath a = true := hnormal a (List.mem_cons_self _ _)
        apply List.mem_append_left
        simp [taskEvents, hnp]
      · have hnotin' : sid ∉ sid' :: created := by
          intro hmem
          rcases List.mem_cons.mp hmem with h | h
          · exact hsid h.symm
          · exact hnotin h
        exact List.mem_append_right _
          (ih (sid' :: created) sid X2 Y hv.2 hnotin'
            (fun a' ha' => hnormal a' (List.mem_cons_of_mem _ ha')) hrest)
    | userAction sid' e =>
      rw [ValidSchedule, Bool.and_eq_true] at hv
      have hsid : sid' ≠ sid := by
        intro h
        subst h
        exact hnotin (by simpa using hv.1)
      have hterm : LoopEvt.terminalProcessed sid ∉ taskEvents (.userAction sid' e) := by
        simp only [taskEvents, List.mem_singleton]
        intro h
        exact hsid (LoopEvt.terminalProcessed.inj h).symm
      obtain ⟨X2, rfl, hrest⟩ := append_eq_append_cons heq hterm
      exact List.mem_append_right _
        (ih created sid X2 Y hv.2 hnotin
          (fun a' ha' => hnormal a' (List.mem_cons_of_mem _ ha')) hrest)

/-- C7: in every well-formed single-threaded execution, whenever any
position of the event sequence processes a terminal transition for a
session whose firings all came from the normal scheduler path, the re-arm
of that session's next occurrence already appears strictly earlier in the
sequence: `triggerAlarm` completes the arm-next-occurrence step inside the
firing task itself, before the event loop can run any user-resolution
task. -/
theorem C7_rearm_completes_before_terminal (ts : List LoopTask) (sid : Nat)
    (X Y : List LoopEvt)
    (hv : ValidSchedule [] ts = true)
    (hnormal : ∀ a, LoopTask.fire sid a ∈ ts → normalPath a = true)
    (hsplit : loopEvents ts = X ++ LoopEvt.terminalProcessed sid :: Y) :
    LoopEvt.rearmed sid ∈ X :=
  loopEvents_rearm_before_terminal ts [] sid X Y hv (by simp) hnormal hsplit

/-- A concrete normal-path alarm (id present, not manually triggered). -/
def wAlarm7 : Alarm :=
  { _id := some 7, userId := 0, time := ⟨7, 0⟩, label := none,
    days := [WeekDay.Thu], isEnabled := true }

/-- Concrete two-task execution: a normal-path firing of session 0 followed
by the user confirming it. -/
def wTrace : List LoopTask := [.fire 0 wAlarm7, .userAction 0 .wakeUp]

/-- C7 witness: on the concrete trace the re-arm event indeed precedes the
terminal processing. -/
theorem C7_rearm_completes_before_terminal_witness :
    ValidSchedule [] wTrace = true ∧
    loopEvents wTrace =
      [LoopEvt.sessionShown 0, LoopEvt.rearmed 0] ++ LoopEvt.terminalProcessed 0 :: [] ∧
    LoopEvt.rearmed 0 ∈ [LoopEvt.sessionShown 0, LoopEvt.rearmed 0] :=
  ⟨by decide, by decide,
    C7_rearm_completes_before_terminal wTrace 0
      [LoopEvt.sessionShown 0, LoopEvt.rearmed 0] [] (by decide)
      (fun a ha => by
        have h2 : LoopTask.fire 0 a = LoopTask.fire 0 wAlarm7 ∨
            LoopTask.fire 0 a = LoopTask.userAction 0 .wakeUp := by
          simpa [wTrace] using ha
        rcases h2 with h | h
        · injection h with h1 h2
          subst h2
          rfl
        · exact LoopTask.noConfusion h)
      (by decide)⟩
